import Mathlib

/-!
Shallow embedding of `go/packages/packagestest/marker.go`: a marker
extraction and dispatch engine for annotations of the form `//@expr`
embedded in source text.  Byte slices are modelled as `List Nat`,
Go maps keyed by strings as association lists with first-match lookup,
and the `testing.T` failure modes (`t.Fatalf`, panics) as an explicit
`Failure` type returned through `Except` / a run-output record.
-/

namespace Packagestest

/-- Model of `Position` from marker.go: `token.Position` (filename, line, column)
extended with the byte offset within the file.  The embedded
`token.Position.Offset` field is never set by this code and is omitted. -/
structure Position where
  filename : String
  line : Nat
  column : Nat
  offset : Nat

/-- Model of `line` from marker.go.  The `file` back-reference is flattened to the
file name: after extraction the code only ever reads `line.file.name`
(for error formatting), never `line.file.content`. -/
structure Line where
  fname : String
  offset : Nat
  number : Nat
  value : List Nat

/-- the `token.Token` literal kinds that can appear on an `ast.BasicLit`. -/
inductive LitKind
  | string
  | int
  | char
  | float
  | imag

/-- the subset of `go/ast` expression shapes the engine distinguishes:
identifiers, basic literals (carrying the raw literal text, quotes
included, as `ast.BasicLit.Value` does), call expressions, and a
catch-all for every other expression shape. -/
inductive Expr where
  | ident (name : String)
  | basicLit (kind : LitKind) (value : String)
  | call (fn : Expr) (args : List Expr)
  | other

/-- Model of `marker` from marker.go: the line it occurred on, the method it
invokes and the raw argument expressions. -/
structure Marker where
  line : Line
  method : String
  args : List Expr

/-- Model of `Markers` from marker.go: the engine state.  `anchors` is `none`
until first computed, mirroring the nil Go map. -/
structure Markers where
  anchors : Option (List (String × Position))
  markers : List Marker

/-- the bytes of `markerComment`, `//@`. -/
def markerBytes : List Nat := [47, 47, 64]

/-- first-match lookup in an association list, modelling Go map indexing. -/
def goLookup {α : Type} : List (String × α) → String → Option α
  | [], _ => none
  | (k, v) :: rest, key => if k == key then some v else goLookup rest key

/-- predicate `isPfx pat s` holds when `pat` is an initial segment of `s`. -/
def isPfx : List Nat → List Nat → Bool
  | [], _ => true
  | _ :: _, [] => false
  | a :: as, b :: bs => a == b && isPfx as bs

/-- Model of `bytes.Index`: the index of the first occurrence of `pat` as a
contiguous subslice of `s`, or `none`.  `bytes.Index` with an empty
pattern returns 0. -/
def goIndex : List Nat → List Nat → Option Nat
  | s, pat =>
    if isPfx pat s then some 0
    else
      match s with
      | [] => none
      | _ :: rest => (goIndex rest pat).map (· + 1)

/-- fuel-indexed worker for `bytes.Split(s, markerComment)`; each
recursive step removes at least the three matched separator bytes, so
`s.length` fuel always suffices. -/
def splitOnMarkerF : Nat → List Nat → List (List Nat)
  | 0, s => [s]
  | fuel + 1, s =>
    match goIndex s markerBytes with
    | none => [s]
    | some i => s.take i :: splitOnMarkerF fuel (s.drop (i + 3))

/-- Model of `bytes.Split(s, markerComment)`: split around each occurrence of
`//@`, leftmost first. -/
def splitOnMarker (s : List Nat) : List (List Nat) :=
  splitOnMarkerF s.length s

/-- Model of `bytes.SplitAfter(s, "\n")`: split after each newline byte, keeping
the terminator attached to the preceding segment. -/
def splitAfterNL : List Nat → List (List Nat)
  | [] => [[]]
  | b :: rest =>
    match splitAfterNL rest with
    | [] => [[b]]
    | seg :: segs => if b == 10 then [b] :: seg :: segs else (b :: seg) :: segs

/-- ASCII whitespace bytes trimmed by `strings.TrimSpace`.  (TrimSpace
also trims multi-byte Unicode spaces; marker bodies in this code are
ASCII-delimited so only the ASCII subset is modelled.) -/
def isSpaceByte (b : Nat) : Bool :=
  b == 32 || b == 9 || b == 10 || b == 13 || b == 11 || b == 12

/-- Model of `strings.TrimSpace` on the bytes of the string. -/
def trimSpace (s : List Nat) : List Nat :=
  ((s.dropWhile isSpaceByte).reverse.dropWhile isSpaceByte).reverse

/-- total length in bytes of a list of byte segments. -/
def sumLens (l : List (List Nat)) : Nat := (l.map List.length).sum

/-- UTF-8 encoding of a single code point (Go `utf8.EncodeRune`). -/
def utf8Bytes (c : Nat) : List Nat :=
  if c < 128 then [c]
  else if c < 2048 then [192 + c / 64, 128 + c % 64]
  else if c < 65536 then [224 + c / 4096, 128 + (c / 64) % 64, 128 + c % 64]
  else [240 + c / 262144, 128 + (c / 4096) % 64, 128 + (c / 64) % 64, 128 + c % 64]

/-- the UTF-8 bytes of a string, modelling Go's `[]byte(s)`. -/
def strBytes (s : String) : List Nat :=
  (s.data.map (fun c => utf8Bytes c.toNat)).flatten

/-- Model of `len(string(bs))` for a byte slice `bs`: Go's conversion from a byte
slice to a string copies the bytes unchanged, and `len` on a string
counts bytes, so this is exactly the byte count of the slice. -/
def goStringLen (bs : List Nat) : Nat := bs.length

/-- Follows the spec's words: the number of runes (Unicode code points)
in a byte sequence.  On valid UTF-8 every byte that is not a
continuation byte (`10xxxxxx`) starts exactly one rune, which matches
Go's `utf8.RuneCount` there; this definition is only compared against
the code on valid UTF-8 inputs. -/
def specRuneCount (bs : List Nat) : Nat :=
  (bs.filter (fun b => !(b / 64 == 2))).length

/-- true when the first byte of the literal text is a backquote
(`arg.Value[0] == 96`). -/
def startsWithBacktick (v : String) : Bool :=
  match v.data with
  | [] => false
  | c :: _ => c.toNat == 96

/-- escape processing for the body of a double-quoted Go string literal,
modelling the subset of `strconv.Unquote` escapes exercised here
(`\\`, `\"`, `\n`, `\t`, `\r`); other escape forms and a bare interior
quote are syntax errors. -/
def unescape : List Char → Except Unit (List Char)
  | [] => .ok []
  | '\\' :: [] => .error ()
  | '\\' :: c :: rest =>
    match unescape rest with
    | .error e => .error e
    | .ok tail =>
      if c == '\\' then .ok ('\\' :: tail)
      else if c == '"' then .ok ('"' :: tail)
      else if c == 'n' then .ok ('\n' :: tail)
      else if c == 't' then .ok ('\t' :: tail)
      else if c == 'r' then .ok ('\r' :: tail)
      else .error ()
  | '"' :: _ => .error ()
  | c :: rest =>
    match unescape rest with
    | .error e => .error e
    | .ok tail => .ok (c :: tail)

/-- Model of `strconv.Unquote` on the raw literal text: a backquoted literal
yields its raw interior (which may not itself contain a backquote), a
double-quoted literal yields its escape-processed interior, anything
else is an error. -/
def gUnquote (v : String) : Except Unit String :=
  let cs := v.data
  if cs.length < 2 then .error ()
  else
    let first := cs.headD ' '
    let last := cs.getLastD ' '
    let inner := (cs.drop 1).dropLast
    if first.toNat == 96 then
      if last.toNat == 96 && inner.all (fun c => !(c.toNat == 96)) then
        .ok (String.mk inner)
      else .error ()
    else if first == '"' && last == '"' then
      match unescape inner with
      | .error _ => .error ()
      | .ok l => .ok (String.mk l)
    else .error ()

/-- Model of `strconv.Quote` restricted to its behaviour on the characters that
can occur in a Go identifier: a quote or backslash is backslash-escaped
and every other printable character is kept as is.  (Control and other
non-printable characters take numeric escapes in Go; the engine only
quotes identifier names, which cannot contain them.) -/
def goQuoteChar (c : Char) : List Char :=
  if c == '"' || c == '\\' then ['\\', c] else [c]

/-- Model of `strconv.Quote` (on the identifier-character subset above). -/
def goQuote (s : String) : String :=
  String.mk ('"' :: (s.data.map goQuoteChar).flatten ++ ['"'])

/-- a character needing no escaping under `goQuote` and printable. -/
def plainChar (c : Char) : Bool :=
  !(c == '"') && !(c == '\\') && Nat.ble 32 c.toNat

/-- a string of plain characters, e.g. any ASCII Go identifier. -/
def plainStr (s : String) : Bool := s.data.all plainChar

/-- decimal digit string to value, or error. -/
def digitsVal (cs : List Char) : Except Unit Nat :=
  if cs.isEmpty then .error ()
  else if cs.all (fun c => c.isDigit) then
    .ok (cs.foldl (fun acc c => acc * 10 + (c.toNat - 48)) 0)
  else .error ()

/-- Model of `strconv.Atoi`: optional sign then decimal digits.  (Overflow of the
machine int is not modelled; no claim concerns it.) -/
def goAtoi (s : String) : Except Unit Int :=
  match s.data with
  | '-' :: ds =>
    match digitsVal ds with
    | .error e => .error e
    | .ok n => .ok (-(n : Int))
  | '+' :: ds =>
    match digitsVal ds with
    | .error e => .error e
    | .ok n => .ok (n : Int)
  | ds =>
    match digitsVal ds with
    | .error e => .error e
    | .ok n => .ok (n : Int)

/-- the non-fatal errors reported through `t.Errorf`; the only `Errorf`
in this code is the duplicate-anchor report of the built-in mark
handler, carrying the name, the retained old position and the newly
declared one. -/
inductive TErr where
  | duplicateAnchor (name : String) (old new : Position)

/-- the ways a conversion or dispatch step can abort.  Each constructor
but the last stands for one distinct `t.Fatalf` site in marker.go;
`indexOutOfRange` stands for the runtime panic raised by indexing
`args[0]` on an empty argument slice, which is not a reported test
failure but a crash. -/
inductive Failure where
  | missingArg
  | anchorNotFound (name : String)
  | invalidStringLit (value : String)
  | regexError (msg : String)
  | patternNotFound (pattern : String)
  | cannotConvertPos
  | nonStringLit
  | cannotConvertString
  | intNotLiteral
  | nonIntLiteral
  | atoiError (value : String)
  | badParamKind (typeName : String)
  | unwantedArgs
  | indexOutOfRange

/-- true exactly for the runtime panic: every other `Failure` is a
`t.Fatalf` report that marks the calling test failed and unwinds it. -/
def Failure.isPanicCrash : Failure → Bool
  | .indexOutOfRange => true
  | _ => false

/-- true exactly for the handler-registration (converter-building)
configuration error. -/
def Failure.isConfigErr : Failure → Bool
  | .badParamKind _ => true
  | _ => false

/-- the typed values produced by converters and passed to handlers:
the ambient `*testing.T`, the ambient `*Markers`, a `Position`, a
string, or an int. -/
inductive Value where
  | vT
  | vM
  | vPos (p : Position)
  | vStr (s : String)
  | vInt (i : Int)

/-- the declared parameter types `buildConverter` distinguishes via
reflection: `*testing.T`, `*Markers`, `Position`, string kind, int
kind, and any other type (carrying its printed name). -/
inductive ParamKind where
  | testingT
  | markersT
  | position
  | stringK
  | intK
  | other (typeName : String)

/-- the outcome of compiling one regular expression: a compile error
message, or a matcher returning the start index of the first match of
the pattern within a byte slice (`regexp.Compile` / `re.FindIndex`).
The regular-expression engine itself is Go library code outside this
repository, so it is passed in as an oracle. -/
def RegexO : Type := String → Except String (List Nat → Option Nat)

/-- Model of `buildConverter`'s per-parameter conversion step: given the current
anchor table, the marker being dispatched and its remaining argument
expressions, produce the value for one parameter and the arguments it
left unconsumed, or abort. -/
def applyConverter (re : RegexO) (anchors : List (String × Position))
    (k : ParamKind) (a : Marker) (args : List Expr) :
    Except Failure (Value × List Expr) :=
  match k with
  | .testingT => .ok (.vT, args)
  | .markersT => .ok (.vM, args)
  | .position =>
    match args with
    | [] => .error .missingArg
    | arg :: rest =>
      match arg with
      | .ident n =>
        match goLookup anchors n with
        | none => .error (.anchorNotFound n)
        | some p => .ok (.vPos p, rest)
      | .basicLit _ v =>
        match gUnquote v with
        | .error _ => .error (.invalidStringLit v)
        | .ok s =>
          let idx : Except Failure (Option Nat) :=
            if startsWithBacktick v then
              match re s with
              | .error msg => .error (.regexError msg)
              | .ok find => .ok (find a.line.value)
            else
              .ok (goIndex a.line.value (strBytes s))
          match idx with
          | .error e => .error e
          | .ok none => .error (.patternNotFound s)
          | .ok (some i) =>
            .ok (.vPos { filename := a.line.fname, line := a.line.number,
                         column := goStringLen (a.line.value.take i) + 1,
                         offset := a.line.offset + i }, rest)
      | _ => .error .cannotConvertPos
  | .stringK =>
    match args with
    | [] => .error .indexOutOfRange
    | arg :: rest =>
      match arg with
      | .ident n => .ok (.vStr n, rest)
      | .basicLit kind v =>
        match kind with
        | .string =>
          match gUnquote v with
          | .error _ => .error (.invalidStringLit v)
          | .ok s => .ok (.vStr s, rest)
        | _ => .error .nonStringLit
      | _ => .error .cannotConvertString
  | .intK =>
    match args with
    | [] => .error .indexOutOfRange
    | arg :: rest =>
      match arg with
      | .basicLit kind v =>
        match kind with
        | .int =>
          match goAtoi v with
          | .error _ => .error (.atoiError v)
          | .ok n => .ok (.vInt n, rest)
        | _ => .error .nonIntLiteral
      | _ => .error .intNotLiteral
  | .other tn => .error (.badParamKind tn)

/-- the converter-application loop of `Invoke`: run one converter per
declared parameter in order, threading the remaining arguments. -/
def runConverters (re : RegexO) (anchors : List (String × Position))
    (a : Marker) : List ParamKind → List Expr →
    Except Failure (List Value × List Expr)
  | [], args => .ok ([], args)
  | k :: ks, args =>
    match applyConverter re anchors k a args with
    | .error e => .error e
    | .ok (v, args1) =>
      match runConverters re anchors a ks args1 with
      | .error e => .error e
      | .ok (vs, args2) => .ok (v :: vs, args2)

/-- the type-dispatch of `buildConverter`: every supported parameter
kind yields its converter (represented by the kind itself), any other
declared type is a fatal configuration error. -/
def buildConverterK : ParamKind → Except Failure ParamKind
  | .other tn => .error (.badParamKind tn)
  | k => .ok k

/-- the converter-building loop over one handler's parameter list. -/
def buildConverters : List ParamKind → Except Failure (List ParamKind)
  | [] => .ok []
  | k :: ks =>
    match buildConverterK k with
    | .error e => .error e
    | .ok c =>
      match buildConverters ks with
      | .error e => .error e
      | .ok cs => .ok (c :: cs)

/-- a handler: its declared parameter kinds and its effect.  The effect
receives the engine state and the converted values and returns the new
engine state together with the `t.Errorf` reports it issued; the only
handler with a real effect in this development is the built-in mark
handler, caller handlers are opaque closures. -/
structure Handler where
  kinds : List ParamKind
  impl : Markers → List Value → Markers × List TErr

/-- the handler-registration loop of `Invoke`: build every handler's
converters before dispatching anything. -/
def buildHandlers : List (String × Handler) → Except Failure Unit
  | [] => .ok ()
  | (_, h) :: rest =>
    match buildConverters h.kinds with
    | .error e => .error e
    | .ok _ => buildHandlers rest

/-- the observable outcome of one dispatch run: the handler calls that
were performed (method name and converted parameter values, in order),
the `t.Errorf` reports issued, and either the final engine state or the
failure that aborted the run.  Calls and reports made before a failure
are retained, as they are in a real test run. -/
structure RunOut where
  calls : List (String × List Value)
  errs : List TErr
  res : Except Failure Markers

/-- the marker-dispatch loop of `Invoke`: for each marker in order, a
method with no matching handler is skipped, otherwise the handler's
converters run on the marker's arguments, leftover arguments are fatal,
and the handler is called. -/
def invokeMarkers (re : RegexO) (hs : List (String × Handler)) :
    List Marker → Markers → RunOut
  | [], st => ⟨[], [], .ok st⟩
  | a :: rest, st =>
    match goLookup hs a.method with
    | none => invokeMarkers re hs rest st
    | some mi =>
      match runConverters re (st.anchors.getD []) a mi.kinds a.args with
      | .error e => ⟨[], [], .error e⟩
      | .ok (params, leftover) =>
        match leftover with
        | _ :: _ => ⟨[], [], .error .unwantedArgs⟩
        | [] =>
          let (st1, errs) := mi.impl st params
          let out := invokeMarkers re hs rest st1
          ⟨(a.method, params) :: out.calls, errs ++ out.errs, out.res⟩

/-- the body of `Invoke` after its initial `m.Anchors(t)` call: build
all converters, then dispatch every marker. -/
def Markers.invokeCore (re : RegexO) (hs : List (String × Handler))
    (st : Markers) : RunOut :=
  match buildHandlers hs with
  | .error e => ⟨[], [], .error e⟩
  | .ok _ => invokeMarkers re hs st.markers st

/-- the effect of the built-in mark handler
`func(t *testing.T, m *Markers, name string, pos Position)`: report a
duplicate and keep the old binding, or insert the new one. -/
def markImpl (st : Markers) (params : List Value) : Markers × List TErr :=
  match params with
  | [.vT, .vM, .vStr name, .vPos pos] =>
    match st.anchors with
    | some tbl =>
      match goLookup tbl name with
      | some old => (st, [.duplicateAnchor name old pos])
      | none => ({ st with anchors := some (tbl ++ [(name, pos)]) }, [])
    | none => (st, [])
  | _ => (st, [])

/-- the built-in mark handler. -/
def markHandler : Handler :=
  { kinds := [.testingT, .markersT, .stringK, .position], impl := markImpl }

/-- the handler table `Anchors` passes to `Invoke`. -/
def markTable : List (String × Handler) := [("mark", markHandler)]

/-- Model of `Markers.Anchors`: if the anchor table is not yet computed,
initialise it to empty and run `Invoke` with the built-in mark handler
over every marker (the nested `Anchors` call inside that `Invoke`
returns immediately because the table is already non-nil, so the run
reduces to `invokeCore`); otherwise return the cached state unchanged,
dispatching nothing. -/
def Markers.Anchors (re : RegexO) (st : Markers) : RunOut :=
  match st.anchors with
  | some _ => ⟨[], [], .ok st⟩
  | none => Markers.invokeCore re markTable { st with anchors := some [] }

/-- Model of `Markers.Invoke`: ensure anchors are computed, then build the
supplied handlers' converters and dispatch every marker against them. -/
def Markers.Invoke (re : RegexO) (st : Markers)
    (hs : List (String × Handler)) : RunOut :=
  let o1 := Markers.Anchors re st
  match o1.res with
  | .error e => ⟨o1.calls, o1.errs, .error e⟩
  | .ok st1 =>
    let o2 := Markers.invokeCore re hs st1
    ⟨o1.calls ++ o2.calls, o1.errs ++ o2.errs, o2.res⟩

/-- the errors `Extract` can return for one marker occurrence, each
carrying the file name and 1-based line number it reports. -/
inductive ExtractErr where
  | parseError (fname : String) (lineNo : Nat)
  | funNotIdent (fname : String) (lineNo : Nat)
  | unhandledExpr (fname : String) (lineNo : Nat)

/-- the result of `parser.ParseExpr` on a marker body: `none` is a
parse error.  The Go expression parser is library code outside this
repository, so it is passed in as an oracle. -/
def ParseO : Type := List Nat → Option Expr

/-- the expression switch of `Extract`: a bare identifier is rewritten
to `mark(name, strconv.Quote(name))`, a call whose function is an
identifier becomes a marker of that method, and everything else is an
error. -/
def exprToMarker (l : Line) : Expr → Except ExtractErr Marker
  | .ident n =>
    .ok { line := l, method := "mark",
          args := [.ident n, .basicLit .string (goQuote n)] }
  | .call (.ident n) args => .ok { line := l, method := n, args := args }
  | .call _ _ => .error (.funNotIdent l.fname l.number)
  | _ => .error (.unhandledExpr l.fname l.number)

/-- the inner loop of `Extract` over the marker bodies of one line:
trim, parse, convert; on the first failure return immediately, keeping
every marker already appended. -/
def processParts (parse : ParseO) (l : Line) :
    List (List Nat) → List Marker → List Marker × Option ExtractErr
  | [], acc => (acc, none)
  | part :: rest, acc =>
    match parse (trimSpace part) with
    | none => (acc, some (.parseError l.fname l.number))
    | some e =>
      match exprToMarker l e with
      | .error err => (acc, some err)
      | .ok mk => processParts parse l rest (acc ++ [mk])

/-- the successful parse of a whole list of marker bodies, used to
state which markers the loop appends before a later failure. -/
def parseParts (parse : ParseO) (l : Line) :
    List (List Nat) → Option (List Marker)
  | [] => some []
  | part :: rest =>
    match parse (trimSpace part) with
    | none => none
    | some e =>
      match exprToMarker l e with
      | .error _ => none
      | .ok mk => (parseParts parse l rest).map (mk :: ·)

/-- the line record `Extract` builds for one terminator-attached
segment: the stored value is the part of the segment before its first
marker delimiter. -/
def mkLine (fname : String) (number offset : Nat) (seg : List Nat) : Line :=
  { fname := fname, number := number, offset := offset,
    value := (splitOnMarker seg).headD [] }

/-- the outer loop of `Extract` over line segments: build the line,
advance the running offset by the original segment length, process the
marker bodies of the line, stop at the first error. -/
def extractLoop (parse : ParseO) (fname : String) :
    List (List Nat) → Nat → Nat → List Marker →
    List Marker × Option ExtractErr
  | [], _, _, acc => (acc, none)
  | seg :: rest, n, offset, acc =>
    let l := mkLine fname (n + 1) offset seg
    match processParts parse l (splitOnMarker seg).tail acc with
    | (acc1, some e) => (acc1, some e)
    | (acc1, none) => extractLoop parse fname rest (n + 1) (offset + seg.length) acc1

/-- Model of `Markers.Extract` with in-memory content: split the file into
terminator-attached segments and run the extraction loop, appending to
the engine's marker sequence; the possibly-failing result leaves every
already-appended marker in place. -/
def Markers.Extract (parse : ParseO) (st : Markers) (fname : String)
    (content : List Nat) : Markers × Option ExtractErr :=
  ({ st with markers :=
       (extractLoop parse fname (splitAfterNL content) 0 0 st.markers).1 },
   (extractLoop parse fname (splitAfterNL content) 0 0 st.markers).2)

/-- the sequence of line records `Extract` builds for a list of
segments, with the running offset it ends at. -/
def buildLinesAux (fname : String) :
    List (List Nat) → Nat → Nat → List Line × Nat
  | [], _, offset => ([], offset)
  | seg :: rest, n, offset =>
    let (ls, fin) := buildLinesAux fname rest (n + 1) (offset + seg.length)
    (mkLine fname (n + 1) offset seg :: ls, fin)

/-- the line records `Extract` builds for a whole file. -/
def extractLines (fname : String) (content : List Nat) : List Line :=
  (buildLinesAux fname (splitAfterNL content) 0 0).1

/-- the running byte offset after `Extract` has walked a whole file. -/
def extractFinalOff (fname : String) (content : List Nat) : Nat :=
  (buildLinesAux fname (splitAfterNL content) 0 0).2

/-- a default line, for `List.getD` in statements. -/
def dfltLine : Line := { fname := "", offset := 0, number := 0, value := [] }

/-- the `(name, position)` payloads of the successful calls to the
built-in mark handler within a dispatch trace; used to characterise the
anchor table the anchor pass builds. -/
def markDecls : List (String × List Value) → List (String × Position)
  | [] => []
  | (nm, vs) :: rest =>
    match vs with
    | [.vT, .vM, .vStr n, .vPos p] =>
      if nm == "mark" then (n, p) :: markDecls rest else markDecls rest
    | _ => markDecls rest

/-- true for a duplicate-anchor report about the given name. -/
def isDupFor (X : String) : TErr → Bool
  | .duplicateAnchor n _ _ => n == X

/-- first-wins insertion of a sequence of anchor declarations into a
table, exactly as the mark handler performs it marker by marker. -/
def anchFold (tbl : List (String × Position)) :
    List (String × Position) → List (String × Position)
  | [] => tbl
  | (n, p) :: rest =>
    match goLookup tbl n with
    | some _ => anchFold tbl rest
    | none => anchFold (tbl ++ [(n, p)]) rest

/-- the duplicate-anchor reports the mark handler issues while folding a
sequence of declarations into a table. -/
def dupErrs (tbl : List (String × Position)) :
    List (String × Position) → List TErr
  | [] => []
  | (n, p) :: rest =>
    match goLookup tbl n with
    | some old => TErr.duplicateAnchor n old p :: dupErrs tbl rest
    | none => dupErrs (tbl ++ [(n, p)]) rest

/-- a marker body on which the extraction loop fails: either the parse
oracle rejects it, or the parsed expression has an unhandled shape. -/
def partFails (parse : ParseO) (l : Line) (p : List Nat) : Prop :=
  match parse (trimSpace p) with
  | none => True
  | some e => ∃ er, exprToMarker l e = .error er

/-- a regular-expression oracle for runs that never reach the regex
branch. -/
def reNone : RegexO := fun _ => .error "unavailable"

/-- a line whose stripped content is the two runes of UTF-8 text
(one of them two bytes wide), for the column computation. -/
def lineAlpha : Line := { fname := "f.go", offset := 0, number := 1,
                          value := strBytes "αx" }

/-- a marker sitting on `lineAlpha`. -/
def markerAlpha : Marker := { line := lineAlpha, method := "m", args := [] }

/-- the position the converter produces for the match of `x` on
`lineAlpha`. -/
def posAlpha : Position :=
  { filename := "f.go", line := 1, column := 3, offset := 2 }

/-- a line with plain ASCII content. -/
def lineFoo : Line := { fname := "f.go", offset := 0, number := 1,
                        value := strBytes "foo bar" }

/-- a marker sitting on `lineFoo`. -/
def markerFoo : Marker := { line := lineFoo, method := "m", args := [] }

/-- a marker whose method name appears in no handler table below. -/
def markerZZZ : Marker := { line := lineFoo, method := "zzz", args := [] }

/-- two lines both containing the text `N`. -/
def lineN1 : Line := { fname := "f.go", offset := 0, number := 1,
                       value := strBytes "N one" }

/-- second line containing `N`. -/
def lineN2 : Line := { fname := "f.go", offset := 6, number := 2,
                       value := strBytes "N two" }

/-- first declaration of anchor `N`. -/
def markN1 : Marker :=
  { line := lineN1, method := "mark",
    args := [.ident "N", .basicLit .string "\"N\""] }

/-- second declaration of anchor `N`. -/
def markN2 : Marker :=
  { line := lineN2, method := "mark",
    args := [.ident "N", .basicLit .string "\"N\""] }

/-- an engine holding the two duplicate declarations, anchors not yet
computed. -/
def stDup : Markers := { anchors := none, markers := [markN1, markN2] }

/-- the position of the first `N` declaration. -/
def posN1 : Position := { filename := "f.go", line := 1, column := 1, offset := 0 }

/-- the position of the second `N` declaration. -/
def posN2 : Position := { filename := "f.go", line := 2, column := 1, offset := 6 }

/-- the engine state after the anchor pass over `stDup`. -/
def stDupOut : Markers :=
  { anchors := some [("N", posN1)], markers := [markN1, markN2] }

/-- the dispatch trace of the anchor pass over `stDup`. -/
def callsDup : List (String × List Value) :=
  [("mark", [.vT, .vM, .vStr "N", .vPos posN1]),
   ("mark", [.vT, .vM, .vStr "N", .vPos posN2])]

/-- the reports of the anchor pass over `stDup`. -/
def errsDup : List TErr := [.duplicateAnchor "N" posN1 posN2]

/-- an engine with no markers and anchors not yet computed. -/
def stEmpty : Markers := { anchors := none, markers := [] }

/-- an engine with no markers and an (empty) computed anchor table. -/
def stCached : Markers := { anchors := some [], markers := [] }

/-- a mark marker missing its position argument. -/
def markBadArgs : Marker :=
  { line := lineN1, method := "mark", args := [.ident "X"] }

/-- an engine whose anchor pass aborts on `markBadArgs`. -/
def stBadMark : Markers := { anchors := none, markers := [markBadArgs] }

/-- a handler declaring a parameter type the converter registry cannot
build. -/
def badHandler : Handler :=
  { kinds := [.other "chan int"], impl := fun st _ => (st, []) }

/-- a handler table containing `badHandler` under a method name no
marker uses. -/
def hsBad : List (String × Handler) := [("badH", badHandler)]

/-- a parse oracle accepting exactly the body `good` (as the identifier
`G`) and rejecting everything else. -/
def parseDemo : ParseO :=
  fun body => if body == strBytes "good" then some (.ident "G") else none

/-- the line record of the single line of `badContent`. -/
def lineW : Line := { fname := "f.go", offset := 0, number := 1,
                      value := strBytes "x" }

/-- the marker extracted from the body `good` on `lineW`. -/
def mkGood : Marker :=
  { line := lineW, method := "mark",
    args := [.ident "G", .basicLit .string (goQuote "G")] }

/-- file content with one parsable marker body followed by one the
oracle rejects. -/
def badContent : List Nat := strBytes "x//@good//@bad\n"

/-- file content used to exercise the line-offset bookkeeping. -/
def demoContent : List Nat := strBytes "ab//@m\ncd\n"

theorem isPfx_length {pat s : List Nat} (h : isPfx pat s = true) :
    pat.length ≤ s.length := by
  induction pat generalizing s with
  | nil => simp
  | cons a as ih =>
    cases s with
    | nil => simp [isPfx] at h
    | cons b bs =>
      simp only [isPfx, Bool.and_eq_true] at h
      simpa using ih h.2

theorem goIndex_le_length {s pat : List Nat} {i : Nat}
    (h : goIndex s pat = some i) : i ≤ s.length := by
  induction s generalizing i with
  | nil =>
    rw [goIndex] at h
    split at h
    · simp at h; omega
    · simp at h
  | cons b rest ih =>
    rw [goIndex] at h
    split at h
    · simp at h; omega
    · simp only [Option.map_eq_some'] at h
      obtain ⟨j, hj, rfl⟩ := h
      have := ih hj
      simp; omega

theorem goIndex_isPfx {s pat : List Nat} {i : Nat}
    (h : goIndex s pat = some i) : isPfx pat (s.drop i) = true := by
  induction s generalizing i with
  | nil =>
    rw [goIndex] at h
    split at h
    · simp at h; subst h; simpa
    · simp at h
  | cons b rest ih =>
    rw [goIndex] at h
    split at h
    · rename_i hp
      simp at h; subst h; simpa using hp
    · simp only [Option.map_eq_some'] at h
      obtain ⟨j, hj, rfl⟩ := h
      simpa using ih hj

theorem goIndex_first {s pat : List Nat} {i : Nat}
    (h : goIndex s pat = some i) :
    ∀ j, j < i → isPfx pat (s.drop j) = false := by
  induction s generalizing i with
  | nil =>
    intro j hj
    rw [goIndex] at h
    split at h
    · simp at h; omega
    · simp at h
  | cons b rest ih =>
    intro j hj
    rw [goIndex] at h
    split at h
    · simp at h; omega
    · rename_i hp
      simp only [Option.map_eq_some'] at h
      obtain ⟨k, hk, rfl⟩ := h
      cases j with
      | zero => simpa using hp
      | succ j0 => simpa using ih hk j0 (by omega)

theorem goIndex_bound {s pat : List Nat} {i : Nat}
    (h : goIndex s pat = some i) : i + pat.length ≤ s.length := by
  have h1 := goIndex_le_length h
  have h2 := isPfx_length (goIndex_isPfx h)
  rw [List.length_drop] at h2
  omega

theorem goIndex_nil_of_ne {pat : List Nat} (hp : pat ≠ []) :
    goIndex [] pat = none := by
  rw [goIndex]
  cases pat with
  | nil => simp at hp
  | cons a as => simp [isPfx]

theorem splitAfterNL_ne_nil (s : List Nat) : splitAfterNL s ≠ [] := by
  induction s with
  | nil => simp [splitAfterNL]
  | cons b rest ih =>
    rw [splitAfterNL]
    rcases h : splitAfterNL rest with _ | ⟨seg, segs⟩
    · exact absurd h ih
    · dsimp only
      split <;> simp

theorem splitAfterNL_flatten (s : List Nat) :
    (splitAfterNL s).flatten = s := by
  induction s with
  | nil => simp [splitAfterNL]
  | cons b rest ih =>
    rw [splitAfterNL]
    rcases h : splitAfterNL rest with _ | ⟨seg, segs⟩
    · exact absurd h (splitAfterNL_ne_nil rest)
    · rw [h] at ih
      dsimp only
      split <;> simp_all

theorem sumLens_splitAfterNL (s : List Nat) :
    sumLens (splitAfterNL s) = s.length := by
  have := congrArg List.length (splitAfterNL_flatten s)
  rwa [List.length_flatten] at this

theorem splitOnMarker_of_none {s : List Nat}
    (h : goIndex s markerBytes = none) : splitOnMarker s = [s] := by
  rw [splitOnMarker]
  cases hl : s.length with
  | zero => rw [splitOnMarkerF]
  | succ k => rw [splitOnMarkerF, h]

theorem splitOnMarker_head_of_some {s : List Nat} {i : Nat}
    (h : goIndex s markerBytes = some i) :
    (splitOnMarker s).headD [] = s.take i := by
  have hb := goIndex_bound h
  rw [splitOnMarker]
  cases hl : s.length with
  | zero => rw [markerBytes] at hb; simp at hb; omega
  | succ k => rw [splitOnMarkerF, h]; rfl

theorem splitOnMarker_head_pfx (s : List Nat) :
    ∃ rest, (splitOnMarker s).headD [] ++ rest = s := by
  rcases h : goIndex s markerBytes with _ | i
  · exact ⟨[], by rw [splitOnMarker_of_none h]; simp⟩
  · exact ⟨s.drop i, by rw [splitOnMarker_head_of_some h]; simp⟩

/-- Claim C2 (code bug): a converter that needs an argument but finds
the marker's remaining argument list empty is supposed to report a
fatal error confined to the current handler invocation for every
supported parameter kind alike; the code only does so for the Position
converter, while the string and int converters index `args[0]` without
a bounds check, which on an empty slice is an index-out-of-range
runtime panic — a process crash, not a reported test failure. -/
theorem missing_arg_string_int_panics :
    applyConverter reNone [] .stringK markerFoo [] = .error .indexOutOfRange
    ∧ applyConverter reNone [] .intK markerFoo [] = .error .indexOutOfRange
    ∧ applyConverter reNone [] .position markerFoo [] = .error .missingArg
    ∧ Failure.isPanicCrash .indexOutOfRange = true
    ∧ Failure.isPanicCrash .missingArg = false :=
  ⟨rfl, rfl, rfl, rfl, rfl⟩

/-- Claim C7: a marker whose method name has no entry in the handler
table is skipped silently by the dispatch loop — no handler runs, no
error or trace entry is produced, and the run continues on the
remaining markers from an unchanged engine state. -/
theorem invoke_skips_unmatched (re : RegexO) (hs : List (String × Handler))
    (a : Marker) (rest : List Marker) (st : Markers)
    (h : goLookup hs a.method = none) :
    invokeMarkers re hs (a :: rest) st = invokeMarkers re hs rest st := by
  rw [invokeMarkers, h]

/-- witness for `invoke_skips_unmatched` at a concrete unmatched
marker. -/
theorem invoke_skips_unmatched_w :
    invokeMarkers reNone markTable [markerZZZ] stCached
      = invokeMarkers reNone markTable [] stCached :=
  invoke_skips_unmatched reNone markTable markerZZZ [] stCached rfl

/-- Claim C1, counterexample: on the line `αx` (whose first rune is two
bytes of UTF-8), matching the quoted string `x` yields column 3 — one
plus the *byte* count of the prefix — whereas one plus the rune count
of the prefix is 2, so the column is not rune-counted as claimed. -/
theorem column_rune_counterexample :
    applyConverter reNone [] .position markerAlpha
        [.basicLit .string "\"x\""] = .ok (.vPos posAlpha, [])
    ∧ posAlpha.column = 3
    ∧ specRuneCount ((strBytes "αx").take 2) + 1 = 2
    ∧ ¬ posAlpha.column = specRuneCount ((strBytes "αx").take 2) + 1 :=
  ⟨rfl, rfl, rfl, by decide⟩

/-- Claim C9, counterexample: with a handler table that contains a
handler of unsupported parameter type, `Invoke` on an engine whose
marker sequence makes the anchor pre-pass abort (a mark marker missing
its position argument) fails with that pre-pass missing-argument error,
not with the claimed configuration error from converter building. -/
theorem bad_param_counterexample :
    Markers.Invoke reNone stBadMark hsBad = ⟨[], [], .error .missingArg⟩
    ∧ Failure.isConfigErr .missingArg = false :=
  ⟨rfl, rfl⟩

/-- Claim C1 as amended: a Position produced by the converter from a
quoted-string or regex argument matching at byte index i of the line's
stripped content has column equal to the number of *bytes* (not runes)
of the line content preceding the match, plus 1, and byte offset equal
to the line offset plus the match index. -/
theorem column_counts_bytes (re : RegexO) (anchors : List (String × Position))
    (a : Marker) (k : LitKind) (v s : String) (rest : List Expr)
    (hq : gUnquote v = .ok s) :
    (∀ i, startsWithBacktick v = false →
       goIndex a.line.value (strBytes s) = some i →
       ∃ p, applyConverter re anchors .position a (.basicLit k v :: rest)
              = .ok (.vPos p, rest)
         ∧ p.column = (a.line.value.take i).length + 1
         ∧ p.offset = a.line.offset + i
         ∧ (a.line.value.take i).length = i)
    ∧ (∀ find i, startsWithBacktick v = true → re s = .ok find →
         find a.line.value = some i →
         ∃ p, applyConverter re anchors .position a (.basicLit k v :: rest)
               = .ok (.vPos p, rest)
           ∧ p.column = (a.line.value.take i).length + 1
           ∧ p.offset = a.line.offset + i) := by
  constructor
  · intro i hnb hi
    refine ⟨{ filename := a.line.fname, line := a.line.number,
              column := goStringLen (a.line.value.take i) + 1,
              offset := a.line.offset + i }, ?_, rfl, rfl, ?_⟩
    · simp [applyConverter, hq, hnb, hi]
    · have hb := goIndex_bound hi
      simp [List.length_take]
      omega
  · intro find i hb hre hf
    refine ⟨{ filename := a.line.fname, line := a.line.number,
              column := goStringLen (a.line.value.take i) + 1,
              offset := a.line.offset + i }, ?_, rfl, rfl⟩
    simp [applyConverter, hq, hb, hre, hf]

/-- witness for `column_counts_bytes`: the quoted string `bar` matches
`foo bar` at byte index 4 and the resulting column is the byte count of
the prefix plus one. -/
theorem column_counts_bytes_w :
    ∃ p, applyConverter reNone [] .position markerFoo
          [.basicLit .string "\"bar\""] = .ok (.vPos p, [])
      ∧ p.column = ((strBytes "foo bar").take 4).length + 1
      ∧ p.offset = 0 + 4
      ∧ ((strBytes "foo bar").take 4).length = 4 :=
  (column_counts_bytes reNone [] markerFoo .string "\"bar\"" "bar" []
    rfl).1 4 rfl rfl

/-- Claim C6: for a Position parameter given a quoted (non-backtick)
string literal, the converter unquotes it and looks for the first exact
byte-substring occurrence of the unquoted text in the line's stripped
content: on a match at index i it yields the Position with byte offset
`line offset + i`, the match really occurs at i and at no smaller
index; with no occurrence it is the fatal pattern-not-found error.  The
stripped content a line stores is exactly the text before the first
marker delimiter of its segment, so a marker's own text is never
matched. -/
theorem position_from_quoted_string (re : RegexO)
    (anchors : List (String × Position)) (a : Marker) (k : LitKind)
    (v s : String) (rest : List Expr)
    (hq : gUnquote v = .ok s) (hnb : startsWithBacktick v = false) :
    (∀ i, goIndex a.line.value (strBytes s) = some i →
        applyConverter re anchors .position a (.basicLit k v :: rest)
          = .ok (.vPos { filename := a.line.fname, line := a.line.number,
                         column := goStringLen (a.line.value.take i) + 1,
                         offset := a.line.offset + i }, rest)
        ∧ isPfx (strBytes s) (a.line.value.drop i) = true
        ∧ ∀ j, j < i → isPfx (strBytes s) (a.line.value.drop j) = false)
    ∧ (goIndex a.line.value (strBytes s) = none →
        applyConverter re anchors .position a (.basicLit k v :: rest)
          = .error (.patternNotFound s))
    ∧ (∀ seg i, goIndex seg markerBytes = some i →
        (splitOnMarker seg).headD [] = seg.take i) := by
  refine ⟨?_, ?_, ?_⟩
  · intro i hi
    refine ⟨?_, goIndex_isPfx hi, goIndex_first hi⟩
    simp [applyConverter, hq, hnb, hi]
  · intro hi
    simp [applyConverter, hq, hnb, hi]
  · intro seg i hi
    exact splitOnMarker_head_of_some hi

/-- witness for `position_from_quoted_string` on the line `foo bar`. -/
theorem position_from_quoted_string_w :
    applyConverter reNone [] .position markerFoo
        [.basicLit .string "\"bar\""]
      = .ok (.vPos { filename := "f.go", line := 1, column := 5,
                     offset := 4 }, [])
    ∧ isPfx (strBytes "bar") ((strBytes "foo bar").drop 4) = true := by
  have h := (position_from_quoted_string reNone [] markerFoo .string
    "\"bar\"" "bar" [] rfl rfl).1 4 rfl
  exact ⟨h.1, h.2.1⟩

theorem sumLens_nil : sumLens [] = 0 := rfl

theorem sumLens_cons (s : List Nat) (l : List (List Nat)) :
    sumLens (s :: l) = s.length + sumLens l := by
  simp [sumLens]

theorem buildLinesAux_length (fname : String) (segs : List (List Nat)) :
    ∀ n off, ((buildLinesAux fname segs n off).1).length = segs.length := by
  induction segs with
  | nil => intro n off; rfl
  | cons seg rest ih =>
    intro n off
    simp [buildLinesAux, ih]

theorem buildLinesAux_fin (fname : String) (segs : List (List Nat)) :
    ∀ n off, (buildLinesAux fname segs n off).2 = off + sumLens segs := by
  induction segs with
  | nil => intro n off; simp [buildLinesAux, sumLens_nil]
  | cons seg rest ih =>
    intro n off
    simp [buildLinesAux, ih, sumLens_cons]
    omega

theorem buildLinesAux_offset (fname : String) (segs : List (List Nat)) :
    ∀ i n off, i < segs.length →
      (((buildLinesAux fname segs n off).1).getD i dfltLine).offset
        = off + sumLens (segs.take i) := by
  induction segs with
  | nil => intro i n off h; simp at h
  | cons seg rest ih =>
    intro i n off h
    cases i with
    | zero => simp [buildLinesAux, mkLine, sumLens_nil]
    | succ j =>
      have := ih j (n + 1) (off + seg.length) (by simpa using h)
      simp only [buildLinesAux, List.getD_cons_succ] at this ⊢
      rw [this, List.take_succ_cons, sumLens_cons]
      omega

theorem buildLinesAux_value (fname : String) (segs : List (List Nat)) :
    ∀ i n off, i < segs.length →
      (((buildLinesAux fname segs n off).1).getD i dfltLine).value
        = (splitOnMarker (segs.getD i [])).headD [] := by
  induction segs with
  | nil => intro i n off h; simp at h
  | cons seg rest ih =>
    intro i n off h
    cases i with
    | zero => simp [buildLinesAux, mkLine]
    | succ j =>
      have := ih j (n + 1) (off + seg.length) (by simpa using h)
      simpa [buildLinesAux] using this

/-- Claim C3: each extracted line's stored byte offset is the sum of
the original (terminator-attached, unstripped) lengths of all preceding
line segments, the stored line content is a prefix of its original
segment (marker text stripped), and the final accumulated offset is
exactly the file's total byte length. -/
theorem line_offsets_reconstruct (fname : String) (content : List Nat)
    (i : Nat) (h : i < (extractLines fname content).length) :
    ((extractLines fname content).getD i dfltLine).offset
      = sumLens ((splitAfterNL content).take i)
    ∧ (∃ rest, ((extractLines fname content).getD i dfltLine).value ++ rest
        = (splitAfterNL content).getD i [])
    ∧ extractFinalOff fname content = content.length := by
  have hlen : i < (splitAfterNL content).length := by
    rw [extractLines] at h
    rwa [buildLinesAux_length] at h
  refine ⟨?_, ?_, ?_⟩
  · have := buildLinesAux_offset fname (splitAfterNL content) i 0 0 hlen
    simpa [extractLines] using this
  · have hv := buildLinesAux_value fname (splitAfterNL content) i 0 0 hlen
    rw [extractLines, hv]
    exact splitOnMarker_head_pfx _
  · rw [extractFinalOff, buildLinesAux_fin, sumLens_splitAfterNL]
    omega

/-- witness for `line_offsets_reconstruct`: the second line of the
two-line demo file starts at offset 7, is a prefix of its segment, and
the final offset is the 10-byte file length. -/
theorem line_offsets_reconstruct_w :
    ((extractLines "f.go" demoContent).getD 1 dfltLine).offset
      = sumLens ((splitAfterNL demoContent).take 1)
    ∧ (∃ rest, ((extractLines "f.go" demoContent).getD 1 dfltLine).value
        ++ rest = (splitAfterNL demoContent).getD 1 [])
    ∧ extractFinalOff "f.go" demoContent = demoContent.length :=
  line_offsets_reconstruct "f.go" demoContent 1 (by decide)

theorem goQuote_plain {n : String} (h : plainStr n = true) :
    goQuote n = "\"" ++ n ++ "\"" := by
  have hflat : ∀ cs : List Char, cs.all plainChar = true →
      (cs.map goQuoteChar).flatten = cs := by
    intro cs hcs
    induction cs with
    | nil => rfl
    | cons c cs ih =>
      simp only [List.all_cons, Bool.and_eq_true] at hcs
      have h1 := hcs.1
      simp only [plainChar, Bool.and_eq_true, Bool.not_eq_true'] at h1
      have hc : goQuoteChar c = [c] := by
        simp [goQuoteChar, h1.1.1, h1.1.2]
      simp [hc, ih hcs.2]
  rw [plainStr] at h
  simp only [goQuote, hflat n.data h]
  rfl

/-- Claim C4: a bare-identifier marker body is rewritten by extraction
to exactly the marker that the explicit two-argument `mark` call with
the quoted identifier text produces — the same method name, the same
argument expressions, the same line — so the two forms yield identical
anchors. -/
theorem bare_ident_is_mark_sugar (l : Line) (n : String)
    (h : plainStr n = true) :
    exprToMarker l (.ident n)
      = .ok { line := l, method := "mark",
              args := [.ident n, .basicLit .string (goQuote n)] }
    ∧ goQuote n = "\"" ++ n ++ "\""
    ∧ exprToMarker l (.call (.ident "mark")
        [.ident n, .basicLit .string ("\"" ++ n ++ "\"")])
      = .ok { line := l, method := "mark",
              args := [.ident n, .basicLit .string (goQuote n)] } := by
  refine ⟨rfl, goQuote_plain h, ?_⟩
  rw [goQuote_plain h]
  rfl

/-- witness for `bare_ident_is_mark_sugar` at the identifier `Foo`. -/
theorem bare_ident_is_mark_sugar_w :
    exprToMarker lineFoo (.ident "Foo")
      = .ok { line := lineFoo, method := "mark",
              args := [.ident "Foo", .basicLit .string (goQuote "Foo")] }
    ∧ goQuote "Foo" = "\"" ++ "Foo" ++ "\""
    ∧ exprToMarker lineFoo (.call (.ident "mark")
        [.ident "Foo", .basicLit .string ("\"" ++ "Foo" ++ "\"")])
      = .ok { line := lineFoo, method := "mark",
              args := [.ident "Foo", .basicLit .string (goQuote "Foo")] } :=
  bare_ident_is_mark_sugar lineFoo "Foo" rfl

theorem processParts_mono (parse : ParseO) (l : Line) :
    ∀ parts acc, ∃ new, (processParts parse l parts acc).1 = acc ++ new := by
  intro parts
  induction parts with
  | nil => intro acc; exact ⟨[], by simp [processParts]⟩
  | cons part rest ih =>
    intro acc
    cases hp : parse (trimSpace part) with
    | none => exact ⟨[], by simp [processParts, hp]⟩
    | some e =>
      cases he : exprToMarker l e with
      | error er => exact ⟨[], by simp [processParts, hp, he]⟩
      | ok mk =>
        obtain ⟨new, hnew⟩ := ih (acc ++ [mk])
        refine ⟨mk :: new, ?_⟩
        simp only [processParts, hp, he, hnew]
        simp

theorem extractLoop_mono (parse : ParseO) (fname : String) :
    ∀ segs n off acc, ∃ new,
      (extractLoop parse fname segs n off acc).1 = acc ++ new := by
  intro segs
  induction segs with
  | nil => intro n off acc; exact ⟨[], by simp [extractLoop]⟩
  | cons seg rest ih =>
    intro n off acc
    obtain ⟨new1, h1⟩ := processParts_mono parse (mkLine fname (n + 1) off seg)
      ((splitOnMarker seg).tail) acc
    rcases hp : processParts parse (mkLine fname (n + 1) off seg)
        (splitOnMarker seg).tail acc with ⟨acc1, e⟩
    have hacc1 : acc1 = acc ++ new1 := by rw [hp] at h1; exact h1
    cases e with
    | some er =>
      refine ⟨new1, ?_⟩
      rw [extractLoop, hp, hacc1]
    | none =>
      obtain ⟨new2, h2⟩ := ih (n + 1) (off + seg.length) acc1
      refine ⟨new1 ++ new2, ?_⟩
      rw [extractLoop, hp, h2, hacc1]
      simp

theorem processParts_stops (parse : ParseO) (l : Line) :
    ∀ good ms bad rest acc,
      parseParts parse l good = some ms →
      partFails parse l bad →
      (processParts parse l (good ++ bad :: rest) acc).1 = acc ++ ms
      ∧ ((processParts parse l (good ++ bad :: rest) acc).2).isSome = true := by
  intro good
  induction good with
  | nil =>
    intro ms bad rest acc hms hbad
    simp only [parseParts, Option.some.injEq] at hms
    subst hms
    rw [partFails] at hbad
    cases hp : parse (trimSpace bad) with
    | none => constructor <;> simp [processParts, hp]
    | some e =>
      rw [hp] at hbad
      obtain ⟨er, her⟩ := hbad
      constructor <;> simp [processParts, hp, her]
  | cons part good ih =>
    intro ms bad rest acc hms hbad
    cases hp : parse (trimSpace part) with
    | none => simp [parseParts, hp] at hms
    | some e =>
      simp only [parseParts, hp] at hms
      cases he : exprToMarker l e with
      | error er => simp [he] at hms
      | ok mk =>
        simp only [he] at hms
        cases hps : parseParts parse l good with
        | none => simp [hps] at hms
        | some ms' =>
          simp only [hps, Option.map_some', Option.some.injEq] at hms
          obtain ⟨hL, hR⟩ := ih ms' bad rest (acc ++ [mk]) hps hbad
          constructor
          · simp only [List.cons_append, processParts, hp, he, List.append_eq]
            rw [hL, ← hms]
            simp
          · simp only [List.cons_append, processParts, hp, he, List.append_eq]
            exact hR

/-- Claim C10: extraction is not atomic on failure — the engine's
marker sequence only ever grows by appending, so when an occurrence
fails (parse error or unhandled expression shape) every marker
successfully parsed from earlier occurrences remains appended, the loop
stops at the failing occurrence with exactly those earlier markers
accumulated, and an error is reported. -/
theorem extract_keeps_partial (parse : ParseO) (st : Markers)
    (fname : String) (content : List Nat) :
    (∃ new, (Markers.Extract parse st fname content).1.markers
        = st.markers ++ new)
    ∧ (∀ (l : Line) good ms bad rest acc,
        parseParts parse l good = some ms →
        partFails parse l bad →
        (processParts parse l (good ++ bad :: rest) acc).1 = acc ++ ms
        ∧ ((processParts parse l (good ++ bad :: rest) acc).2).isSome
            = true) := by
  constructor
  · obtain ⟨new, h⟩ :=
      extractLoop_mono parse fname (splitAfterNL content) 0 0 st.markers
    exact ⟨new, by rw [Markers.Extract]; exact h⟩
  · intro l good ms bad rest acc hms hbad
    exact processParts_stops parse l good ms bad rest acc hms hbad

/-- witness for `extract_keeps_partial`: the demo oracle parses the
first body `good` and rejects the second body `bad`; the marker from
the first body is accumulated and the failure is reported. -/
theorem extract_keeps_partial_w :
    (∃ new, (Markers.Extract parseDemo stEmpty "f.go" badContent).1.markers
        = stEmpty.markers ++ new)
    ∧ ((processParts parseDemo lineW
          ([strBytes "good"] ++ strBytes "bad" :: []) []).1 = [] ++ [mkGood]
       ∧ ((processParts parseDemo lineW
          ([strBytes "good"] ++ strBytes "bad" :: []) []).2).isSome
            = true) := by
  have h := extract_keeps_partial parseDemo stEmpty "f.go" badContent
  exact ⟨h.1, h.2 lineW [strBytes "good"] [mkGood] (strBytes "bad") [] []
    rfl trivial⟩

theorem runConverters_cons_ok {re : RegexO} {anch : List (String × Position)}
    {a : Marker} {k : ParamKind} {ks : List ParamKind} {args : List Expr}
    {params : List Value} {left : List Expr}
    (h : runConverters re anch a (k :: ks) args = .ok (params, left)) :
    ∃ v args1 vs, applyConverter re anch k a args = .ok (v, args1)
      ∧ runConverters re anch a ks args1 = .ok (vs, left)
      ∧ params = v :: vs := by
  rw [runConverters] at h
  cases h1 : applyConverter re anch k a args with
  | error e => simp [h1] at h
  | ok pr =>
    obtain ⟨v, args1⟩ := pr
    simp only [h1] at h
    cases h2 : runConverters re anch a ks args1 with
    | error e => simp [h2] at h
    | ok pr2 =>
      obtain ⟨vs, args2⟩ := pr2
      simp only [h2, Except.ok.injEq, Prod.mk.injEq] at h
      exact ⟨v, args1, vs, rfl, by rw [← h.2]; exact h2, h.1.symm⟩

theorem applyConverter_stringK_shape {re : RegexO}
    {anch : List (String × Position)} {a : Marker} {args : List Expr}
    {v : Value} {rest : List Expr}
    (h : applyConverter re anch .stringK a args = .ok (v, rest)) :
    ∃ s, v = .vStr s := by
  cases args with
  | nil => simp [applyConverter] at h
  | cons arg args' =>
    cases arg with
    | ident n =>
      simp only [applyConverter, Except.ok.injEq, Prod.mk.injEq] at h
      exact ⟨n, h.1.symm⟩
    | basicLit kind vl =>
      cases kind with
      | string =>
        cases hu : gUnquote vl with
        | error e => simp [applyConverter, hu] at h
        | ok s =>
          simp only [applyConverter, hu, Except.ok.injEq, Prod.mk.injEq] at h
          exact ⟨s, h.1.symm⟩
      | int => simp [applyConverter] at h
      | char => simp [applyConverter] at h
      | float => simp [applyConverter] at h
      | imag => simp [applyConverter] at h
    | call fn cargs => simp [applyConverter] at h
    | other => simp [applyConverter] at h

theorem applyConverter_position_shape {re : RegexO}
    {anch : List (String × Position)} {a : Marker} {args : List Expr}
    {v : Value} {rest : List Expr}
    (h : applyConverter re anch .position a args = .ok (v, rest)) :
    ∃ p, v = .vPos p := by
  cases args with
  | nil => simp [applyConverter] at h
  | cons arg args' =>
    cases arg with
    | ident n =>
      cases hl : goLookup anch n with
      | none => simp [applyConverter, hl] at h
      | some p =>
        simp only [applyConverter, hl, Except.ok.injEq, Prod.mk.injEq] at h
        exact ⟨p, h.1.symm⟩
    | basicLit kind vl =>
      cases hu : gUnquote vl with
      | error e => simp [applyConverter, hu] at h
      | ok s =>
        cases hb : startsWithBacktick vl with
        | false =>
          cases hg : goIndex a.line.value (strBytes s) with
          | none => simp [applyConverter, hu, hb, hg] at h
          | some i =>
            simp only [applyConverter, hu, hb, hg, Bool.false_eq_true,
              if_false, Except.ok.injEq, Prod.mk.injEq] at h
            exact ⟨_, h.1.symm⟩
        | true =>
          cases hre : re s with
          | error m => simp [applyConverter, hu, hb, hre] at h
          | ok find =>
            cases hf : find a.line.value with
            | none => simp [applyConverter, hu, hb, hre, hf] at h
            | some i =>
              simp only [applyConverter, hu, hb, hre, hf, if_true,
                Except.ok.injEq, Prod.mk.injEq] at h
              exact ⟨_, h.1.symm⟩
    | call fn cargs => simp [applyConverter] at h
    | other => simp [applyConverter] at h

theorem runConverters_mark_shape {re : RegexO}
    {anch : List (String × Position)} {a : Marker} {args : List Expr}
    {params : List Value} {left : List Expr}
    (h : runConverters re anch a markHandler.kinds args = .ok (params, left)) :
    ∃ n p, params = [Value.vT, Value.vM, Value.vStr n, Value.vPos p] := by
  simp only [markHandler] at h
  obtain ⟨v1, a1, vs1, h1, hr1, hp1⟩ := runConverters_cons_ok h
  obtain ⟨v2, a2, vs2, h2, hr2, hp2⟩ := runConverters_cons_ok hr1
  obtain ⟨v3, a3, vs3, h3, hr3, hp3⟩ := runConverters_cons_ok hr2
  obtain ⟨v4, a4, vs4, h4, hr4, hp4⟩ := runConverters_cons_ok hr3
  obtain ⟨s, rfl⟩ := applyConverter_stringK_shape h3
  obtain ⟨p, rfl⟩ := applyConverter_position_shape h4
  have e1 : v1 = .vT := by
    simp only [applyConverter, Except.ok.injEq, Prod.mk.injEq] at h1
    exact h1.1.symm
  have e2 : v2 = .vM := by
    simp only [applyConverter, Except.ok.injEq, Prod.mk.injEq] at h2
    exact h2.1.symm
  have e5 : vs4 = [] := by
    rw [runConverters] at hr4
    simp only [Except.ok.injEq, Prod.mk.injEq] at hr4
    exact hr4.1.symm
  subst hp1 hp2 hp3 hp4 e1 e2 e5
  exact ⟨s, p, rfl⟩

theorem goLookup_markTable (m : String) :
    goLookup markTable m = if "mark" == m then some markHandler else none := by
  rw [markTable, goLookup]
  split <;> rfl

theorem invokeMark_chars (re : RegexO) :
    ∀ (ms : List Marker) (st : Markers) (tbl : List (String × Position))
      (calls : List (String × List Value)) (errs : List TErr) (st' : Markers),
      st.anchors = some tbl →
      invokeMarkers re markTable ms st = ⟨calls, errs, .ok st'⟩ →
      st'.anchors = some (anchFold tbl (markDecls calls))
      ∧ errs = dupErrs tbl (markDecls calls)
      ∧ st'.markers = st.markers := by
  intro ms
  induction ms with
  | nil =>
    intro st tbl calls errs st' htbl h
    rw [invokeMarkers] at h
    simp only [RunOut.mk.injEq, Except.ok.injEq] at h
    obtain ⟨hc, he, hs⟩ := h
    subst hc; subst he; subst hs
    exact ⟨by simpa [markDecls, anchFold] using htbl, rfl, rfl⟩
  | cons a rest ih =>
    intro st tbl calls errs st' htbl h
    rw [invokeMarkers] at h
    rcases hbeq : ("mark" == a.method) with _ | _
    · rw [goLookup_markTable, hbeq] at h
      simp only [if_neg] at h
      exact (ih st tbl calls errs st' htbl h).imp id
        (fun q => ⟨q.1, q.2⟩)
    · rw [goLookup_markTable, hbeq] at h
      simp only [if_pos] at h
      cases hc : runConverters re (st.anchors.getD []) a markHandler.kinds
          a.args with
      | error e => simp [hc] at h
      | ok pr =>
        obtain ⟨params, leftover⟩ := pr
        simp only [hc] at h
        cases leftover with
        | cons x xs => simp at h
        | nil =>
          obtain ⟨n, p, rfl⟩ := runConverters_mark_shape hc
          have hmeth : a.method = "mark" := (eq_of_beq hbeq).symm
          cases hgl : goLookup tbl n with
          | some old =>
            simp only [markHandler, markImpl, htbl, hgl] at h
            rcases hout : invokeMarkers re markTable rest st with ⟨c2, e2, r2⟩
            rw [hout] at h
            simp only [RunOut.mk.injEq] at h
            obtain ⟨hcalls, herrs, hres⟩ := h
            cases r2 with
            | error e => simp at hres
            | ok st2 =>
              simp only [Except.ok.injEq] at hres
              subst hres
              obtain ⟨q1, q2, q3⟩ := ih st tbl c2 e2 _ htbl hout
              subst hcalls
              refine ⟨?_, ?_, q3⟩
              · rw [hmeth]
                simp only [markDecls, beq_self_eq_true, if_true, anchFold, hgl]
                exact q1
              · rw [hmeth]
                simp only [markDecls, beq_self_eq_true, if_true, dupErrs, hgl]
                rw [← herrs, q2]
                rfl
          | none =>
            simp only [markHandler, markImpl, htbl, hgl] at h
            rcases hout : invokeMarkers re markTable rest
                { st with anchors := some (tbl ++ [(n, p)]) } with ⟨c2, e2, r2⟩
            rw [hout] at h
            simp only [RunOut.mk.injEq] at h
            obtain ⟨hcalls, herrs, hres⟩ := h
            cases r2 with
            | error e => simp at hres
            | ok st2 =>
              simp only [Except.ok.injEq] at hres
              subst hres
              obtain ⟨q1, q2, q3⟩ := ih _ (tbl ++ [(n, p)]) c2 e2 _ rfl hout
              subst hcalls
              refine ⟨?_, ?_, q3⟩
              · rw [hmeth]
                simp only [markDecls, beq_self_eq_true, if_true, anchFold, hgl]
                exact q1
              · rw [hmeth]
                simp only [markDecls, beq_self_eq_true, if_true, dupErrs, hgl]
                rw [← herrs, q2]
                rfl

theorem goLookup_append_some {α : Type} {tbl : List (String × α)} {X : String}
    {q : α} (more : List (String × α)) (h : goLookup tbl X = some q) :
    goLookup (tbl ++ more) X = some q := by
  induction tbl with
  | nil => simp [goLookup] at h
  | cons kv tbl ih =>
    obtain ⟨k, v⟩ := kv
    cases hk : (k == X) with
    | true =>
      simp only [goLookup, hk, if_true] at h
      simp only [List.cons_append, goLookup, hk, if_true]
      exact h
    | false =>
      simp only [goLookup, hk, Bool.false_eq_true, if_false] at h
      simp only [List.cons_append, goLookup, hk, Bool.false_eq_true, if_false]
      exact ih h

theorem goLookup_append_one {α : Type} {tbl : List (String × α)} {X n : String}
    {p : α} (h : goLookup tbl X = none) :
    goLookup (tbl ++ [(n, p)]) X = if n == X then some p else none := by
  induction tbl with
  | nil => simp [goLookup]
  | cons kv tbl ih =>
    obtain ⟨k, v⟩ := kv
    cases hk : (k == X) with
    | true =>
      simp only [goLookup, hk, if_true] at h
      exact absurd h (by simp)
    | false =>
      simp only [goLookup, hk, Bool.false_eq_true, if_false] at h
      simp only [List.cons_append, goLookup, hk, Bool.false_eq_true, if_false]
      exact ih h

theorem anchFold_pres_some {X : String} {q : Position} :
    ∀ (ds : List (String × Position)) (tbl : List (String × Position)),
      goLookup tbl X = some q →
      goLookup (anchFold tbl ds) X = some q := by
  intro ds
  induction ds with
  | nil => intro tbl h; rw [anchFold]; exact h
  | cons d ds ih =>
    intro tbl h
    obtain ⟨n, p⟩ := d
    rw [anchFold]
    cases hgn : goLookup tbl n with
    | some old => simp only [hgn]; exact ih tbl h
    | none => simp only [hgn]; exact ih _ (goLookup_append_some _ h)

theorem anchFold_first {X : String} {p1 : Position} :
    ∀ (ds tl tbl : List (String × Position)),
      goLookup tbl X = none →
      ds.filter (fun d => d.1 == X) = (X, p1) :: tl →
      goLookup (anchFold tbl ds) X = some p1 := by
  intro ds
  induction ds with
  | nil => intro tl tbl h hf; simp at hf
  | cons d ds ih =>
    intro tl tbl h hf
    obtain ⟨n, p⟩ := d
    rw [anchFold]
    cases hn : (n == X) with
    | true =>
      have hnX : n = X := eq_of_beq hn
      simp only [List.filter_cons, hn, if_true, List.cons.injEq,
        Prod.mk.injEq] at hf
      obtain ⟨⟨_, hp⟩, _⟩ := hf
      subst hnX
      subst hp
      simp only [h]
      apply anchFold_pres_some
      rw [goLookup_append_one h]
      simp
    | false =>
      simp only [List.filter_cons, hn, Bool.false_eq_true, if_false] at hf
      cases hgn : goLookup tbl n with
      | some old => simp only [hgn]; exact ih tl tbl h hf
      | none =>
        simp only [hgn]
        refine ih tl _ ?_ hf
        rw [goLookup_append_one h, hn]
        simp

theorem dupErrs_count_some {X : String} {q : Position} :
    ∀ (ds tbl : List (String × Position)), goLookup tbl X = some q →
      ((dupErrs tbl ds).filter (isDupFor X)).length
        = (ds.filter (fun d => d.1 == X)).length := by
  intro ds
  induction ds with
  | nil => intro tbl h; simp [dupErrs]
  | cons d ds ih =>
    intro tbl h
    obtain ⟨n, p⟩ := d
    rw [dupErrs]
    cases hn : (n == X) with
    | true =>
      have hnX : n = X := eq_of_beq hn
      subst hnX
      simp only [h]
      simp only [List.filter_cons, isDupFor, hn, if_true, List.length_cons]
      rw [ih tbl h]
    | false =>
      cases hgn : goLookup tbl n with
      | some old =>
        simp only [hgn]
        simp only [List.filter_cons, isDupFor, hn, Bool.false_eq_true,
          if_false]
        exact ih tbl h
      | none =>
        simp only [hgn]
        simp only [List.filter_cons, hn, Bool.false_eq_true, if_false]
        exact ih _ (goLookup_append_some _ h)

theorem dupErrs_count_none {X : String} :
    ∀ (ds tbl : List (String × Position)), goLookup tbl X = none →
      ((dupErrs tbl ds).filter (isDupFor X)).length
        = (ds.filter (fun d => d.1 == X)).length - 1 := by
  intro ds
  induction ds with
  | nil => intro tbl h; simp [dupErrs]
  | cons d ds ih =>
    intro tbl h
    obtain ⟨n, p⟩ := d
    rw [dupErrs]
    cases hn : (n == X) with
    | true =>
      have hnX : n = X := eq_of_beq hn
      subst hnX
      simp only [h]
      have h2 : goLookup (tbl ++ [(n, p)]) n = some p := by
        rw [goLookup_append_one h]
        simp
      have hs := dupErrs_count_some ds (tbl ++ [(n, p)]) h2
      rw [hs]
      simp only [List.filter_cons, hn, if_true, List.length_cons]
      omega
    | false =>
      cases hgn : goLookup tbl n with
      | some old =>
        simp only [hgn]
        simp only [List.filter_cons, isDupFor, hn, Bool.false_eq_true,
          if_false]
        exact ih tbl h
      | none =>
        simp only [hgn]
        simp only [List.filter_cons, hn, Bool.false_eq_true, if_false]
        refine ih _ ?_
        rw [goLookup_append_one h, hn]
        simp

/-- Claim C5: when the anchor pass declares the same anchor name
exactly twice (two successful mark dispatches with that name, first at
p1, then at p2), the run reports exactly one duplicate-anchor error for
that name, the anchor table retains the first-declared position, and
the pass still completes over the remaining markers (its result is a
success carrying the whole trace). -/
theorem anchors_duplicate_once (re : RegexO) (st st' : Markers)
    (calls : List (String × List Value)) (errs : List TErr)
    (X : String) (p1 p2 : Position)
    (hnone : st.anchors = none)
    (h : Markers.Anchors re st = ⟨calls, errs, .ok st'⟩)
    (hX : (markDecls calls).filter (fun d => d.1 == X) = [(X, p1), (X, p2)]) :
    (errs.filter (isDupFor X)).length = 1
    ∧ goLookup (st'.anchors.getD []) X = some p1 := by
  rw [Markers.Anchors, hnone, Markers.invokeCore] at h
  simp only [show buildHandlers markTable = Except.ok () from rfl] at h
  obtain ⟨q1, q2, _⟩ := invokeMark_chars re _ _ [] calls errs st' rfl h
  constructor
  · rw [q2, dupErrs_count_none (markDecls calls) [] rfl, hX]
    rfl
  · rw [q1, Option.getD_some]
    exact anchFold_first (markDecls calls) [(X, p2)] [] rfl hX

/-- witness for `anchors_duplicate_once`: the engine holding two
declarations of anchor `N` reports one duplicate and keeps the first
position. -/
theorem anchors_duplicate_once_w :
    (errsDup.filter (isDupFor "N")).length = 1
    ∧ goLookup (stDupOut.anchors.getD []) "N" = some posN1 :=
  anchors_duplicate_once reNone stDup stDupOut callsDup errsDup "N"
    posN1 posN2 rfl rfl rfl

/-- Claim C8: anchors are computed once.  A successful `Anchors` run
leaves a computed (non-nil) anchor table; a second `Anchors` call on
the resulting state returns the state unchanged with no reports and an
empty dispatch trace; and the first computation, entered when the table
is still nil, proceeds by dispatching the built-in mark handler table
over all markers (the first step of every `Invoke` is this same
`Anchors` call). -/
theorem anchors_computed_once (re : RegexO) (st st' : Markers)
    (calls : List (String × List Value)) (errs : List TErr)
    (h : Markers.Anchors re st = ⟨calls, errs, .ok st'⟩) :
    (∃ tbl, st'.anchors = some tbl)
    ∧ Markers.Anchors re st' = ⟨[], [], .ok st'⟩
    ∧ (st.anchors = none →
        Markers.Anchors re st
          = Markers.invokeCore re markTable { st with anchors := some [] }) := by
  have hsome : ∃ tbl, st'.anchors = some tbl := by
    cases hst : st.anchors with
    | some tbl =>
      rw [Markers.Anchors, hst] at h
      simp only [RunOut.mk.injEq, Except.ok.injEq] at h
      obtain ⟨_, _, hs⟩ := h
      exact ⟨tbl, by rw [← hs]; exact hst⟩
    | none =>
      rw [Markers.Anchors, hst, Markers.invokeCore] at h
      simp only [show buildHandlers markTable = Except.ok () from rfl] at h
      obtain ⟨q1, _, _⟩ := invokeMark_chars re _ _ [] calls errs st' rfl h
      exact ⟨_, q1⟩
  obtain ⟨tbl, htbl⟩ := hsome
  refine ⟨⟨tbl, htbl⟩, ?_, ?_⟩
  · rw [Markers.Anchors, htbl]
  · intro hn
    rw [Markers.Anchors, hn]

/-- witness for `anchors_computed_once` on an engine with an empty
marker sequence. -/
theorem anchors_computed_once_w :
    (∃ tbl, stCached.anchors = some tbl)
    ∧ Markers.Anchors reNone stCached = ⟨[], [], .ok stCached⟩
    ∧ Markers.Anchors reNone stEmpty
        = Markers.invokeCore reNone markTable
            { stEmpty with anchors := some [] } :=
  ⟨(anchors_computed_once reNone stEmpty stCached [] [] rfl).1,
   (anchors_computed_once reNone stEmpty stCached [] [] rfl).2.1,
   (anchors_computed_once reNone stEmpty stCached [] [] rfl).2.2 rfl⟩

theorem buildConverterK_cases (k : ParamKind) :
    buildConverterK k = .ok k
    ∨ ∃ tn, k = .other tn
        ∧ buildConverterK k = .error (.badParamKind tn) := by
  cases k <;> simp [buildConverterK]

theorem buildConverters_err_shape :
    ∀ (ks : List ParamKind) (e : Failure), buildConverters ks = .error e →
      ∃ m, e = .badParamKind m := by
  intro ks
  induction ks with
  | nil => intro e h; simp [buildConverters] at h
  | cons k ks ih =>
    intro e h
    rw [buildConverters] at h
    rcases buildConverterK_cases k with hk | ⟨tn, _, hk⟩
    · simp only [hk] at h
      cases hks : buildConverters ks with
      | error e2 =>
        simp only [hks, Except.error.injEq] at h
        obtain ⟨m, hm⟩ := ih e2 hks
        exact ⟨m, by rw [← h]; exact hm⟩
      | ok cs => simp [hks] at h
    · simp only [hk, Except.error.injEq] at h
      exact ⟨tn, h.symm⟩

theorem buildConverters_bad_mem :
    ∀ (ks : List ParamKind) (tn : String), ParamKind.other tn ∈ ks →
      ∃ e, buildConverters ks = .error e := by
  intro ks
  induction ks with
  | nil => intro tn hmem; simp at hmem
  | cons k ks ih =>
    intro tn hmem
    rw [buildConverters]
    rcases buildConverterK_cases k with hk | ⟨tn0, _, hk⟩
    · rw [List.mem_cons] at hmem
      rcases hmem with heq | hmem
      · rw [← heq] at hk
        simp [buildConverterK] at hk
      · obtain ⟨e, he⟩ := ih tn hmem
        exact ⟨e, by simp only [hk, he]⟩
    · exact ⟨.badParamKind tn0, by simp only [hk]⟩

theorem buildHandlers_bad :
    ∀ (hs : List (String × Handler)) (nm : String) (hd : Handler)
      (tn : String), (nm, hd) ∈ hs → ParamKind.other tn ∈ hd.kinds →
      ∃ m, buildHandlers hs = .error (.badParamKind m) := by
  intro hs
  induction hs with
  | nil => intro nm hd tn hmem _; simp at hmem
  | cons x hs ih =>
    intro nm hd tn hmem hkind
    obtain ⟨nm0, h0⟩ := x
    rw [List.mem_cons] at hmem
    cases hb : buildConverters h0.kinds with
    | error e =>
      obtain ⟨m, hm⟩ := buildConverters_err_shape _ _ hb
      subst hm
      exact ⟨m, by rw [buildHandlers]; simp only [hb]⟩
    | ok cs =>
      rcases hmem with heq | hmem
      · obtain ⟨_, hh⟩ := Prod.mk.injEq .. ▸ heq
        obtain ⟨e, he⟩ := buildConverters_bad_mem h0.kinds tn (hh ▸ hkind)
        rw [he] at hb
        exact absurd hb (by simp)
      · obtain ⟨m, hm⟩ := ih nm hd tn hmem hkind
        exact ⟨m, by rw [buildHandlers]; simp only [hb]; exact hm⟩

/-- Claim C9 as amended: a handler table containing a handler with an
unsupported declared parameter kind makes converter building fail with
a fatal configuration error, and therefore `invokeCore` — the portion
of `Invoke` after its anchor-ensuring step — fails with that error
before dispatching any marker to the supplied handlers (empty call
trace), whatever the marker sequence and even if no marker names that
handler's method; at the `Invoke` level this configuration failure
surfaces whenever the anchor pre-pass succeeds, with only the
pre-pass's own built-in dispatches on record. -/
theorem bad_param_fails_before_dispatch (re : RegexO)
    (hs : List (String × Handler)) (st st1 : Markers)
    (ac : List (String × List Value)) (ae : List TErr)
    (nm : String) (hd : Handler) (tn : String)
    (hmem : (nm, hd) ∈ hs) (hkind : ParamKind.other tn ∈ hd.kinds)
    (hanch : Markers.Anchors re st = ⟨ac, ae, .ok st1⟩) :
    ∃ msg, Markers.invokeCore re hs st1
        = ⟨[], [], .error (.badParamKind msg)⟩
      ∧ Markers.Invoke re st hs = ⟨ac, ae, .error (.badParamKind msg)⟩ := by
  obtain ⟨m, hm⟩ := buildHandlers_bad hs nm hd tn hmem hkind
  refine ⟨m, ?_, ?_⟩
  · rw [Markers.invokeCore, hm]
  · simp only [Markers.Invoke, hanch, Markers.invokeCore, hm]
    simp

/-- witness for `bad_param_fails_before_dispatch` with the concrete
bad handler table and an engine whose anchors are already computed. -/
theorem bad_param_fails_before_dispatch_w :
    ∃ msg, Markers.invokeCore reNone hsBad stCached
        = ⟨[], [], .error (.badParamKind msg)⟩
      ∧ Markers.Invoke reNone stCached hsBad
        = ⟨[], [], .error (.badParamKind msg)⟩ :=
  bad_param_fails_before_dispatch reNone hsBad stCached stCached [] []
    "badH" badHandler "chan int" (List.Mem.head _) (List.Mem.head _) rfl

end Packagestest
